import Mathlib

/-!
Shallow embedding of the dial value time-series engine of the wtf repository,
taken from src/sqlite/dial.go.

Modelling conventions:
* Timestamps and durations are integers counting seconds (one minute = 60).
  Go `time.Time.Truncate(d)` rounds down to a multiple of `d` since the zero
  time, which is `Int.fdiv`; Go integer and `time.Duration` division truncates
  toward zero, which is `Int.tdiv`.
* The relevant database tables (`dials`, `dial_memberships`, `dial_values`) are
  lists of rows kept in insertion (rowid) order.  A SQL query carrying no
  `ORDER BY` clause returns rows in table-scan order, i.e. in list order; this
  matters because the two history queries of `findDialValueSlotsBetween` in the
  live gorm code carry no `Order` clause (the superseded raw-SQL versions kept
  in comments next to them do).
* Go slices are Lean lists; a Go runtime panic (divide by zero, `make` with a
  negative length, index out of range) is an `Except.error` carrying a
  `GoPanic` value, while a normal Go return is `Except.ok`.  The slot and
  report functions have no other failure source in the pure model, so there an
  `Except.error` always denotes a crash.  `refreshDialValue` instead returns
  `Except DbError DB`: its one reachable storage failure is the enforced
  foreign key on the history table, surfaced as a clean Go `error` return.
* gorm `Scan` into a plain variable reports zero result rows with a nil error
  and leaves the variable at its Go zero value; it never returns
  `sql.ErrNoRows` (only `First`, `Take` and `Last` raise a not-found, and as
  `gorm.ErrRecordNotFound`).  The embedding models `Scan` accordingly.
-/

namespace Wtf

/-- A row of the `dials` table: the tracked entity id and its current aggregate
value.  The remaining columns (name, owner, invite code, timestamps) play no
part in the claims under study. -/
structure DialRow where
  id : Int
  value : Int
  deriving DecidableEq, Repr

/-- A row of the `dial_memberships` table: one member (user) contribution to one
dial aggregate.  `UNIQUE(dial_id, user_id)` holds in the schema. -/
structure MembershipRow where
  dialId : Int
  userId : Int
  value : Int
  deriving DecidableEq, Repr

/-- A row of the `dial_values` history table: `(dial_id, "timestamp", value)`
with `PRIMARY KEY (dial_id, "timestamp")` (migration file, `dial_values`). -/
structure DialValueRow where
  dialId : Int
  timestamp : Int
  value : Int
  deriving DecidableEq, Repr

/-- One published `EventTypeDialValueChanged` event: recipient user, dial id and
the new value (see `publishDialEvent` in dial.go). -/
structure Event where
  userId : Int
  dialId : Int
  value : Int
  deriving DecidableEq, Repr

/-- The mutable store: the three tables, in insertion order, plus the stream of
events published so far through the `EventService`. -/
structure DB where
  dials : List DialRow
  memberships : List MembershipRow
  dialValues : List DialValueRow
  events : List Event
  deriving DecidableEq, Repr

/-- A Go runtime panic reachable from the embedded functions. -/
inductive GoPanic where
  | divideByZero
  | makesliceLenOutOfRange
  | indexOutOfRange
  deriving DecidableEq, Repr

/-- A storage error reachable from the embedded functions: the enforced foreign
key `dial_values.dial_id REFERENCES dials (id)` (schema, and sqlite runs with
`PRAGMA foreign_keys = ON` in db.go). -/
inductive DbError where
  | foreignKeyViolation
  deriving DecidableEq, Repr

/-- One `wtf.DialValueRecord` of a report: a slot timestamp and the average
value for that slot. -/
structure DialValueRecord where
  timestamp : Int
  value : Int
  deriving DecidableEq, Repr

/-- Go `timestamp.Truncate(1 * time.Minute)`: round the timestamp down to a
multiple of one minute. -/
def minuteTrunc (t : Int) : Int :=
  Int.fdiv t 60 * 60

/-- Go `t.Truncate(d)`: round down to a multiple of `d`; with `d <= 0` the time
is returned unchanged. -/
def goTruncateTime (t d : Int) : Int :=
  if d ≤ 0 then t else Int.fdiv t d * d

/-- The `ROUND` function of the storage engines used by the repository applied
to an exact rational: round to the nearest integer, halves away from zero. -/
def sqlRound (q : ℚ) : Int :=
  if 0 ≤ q then ⌊q + 1 / 2⌋ else -⌊-q + 1 / 2⌋

/-- insertDialValue (dial.go lines 686 to 704): truncate the timestamp to one
minute, then insert a `dial_values` row, or, on conflict of the key
`(dial_id, "timestamp")`, overwrite the `value` of the existing row. -/
def insertDialValue (db : DB) (id value timestamp : Int) : DB :=
  let ts := minuteTrunc timestamp
  if db.dialValues.any (fun r => r.dialId == id && r.timestamp == ts) then
    let updated := db.dialValues.map
      (fun r => if r.dialId == id && r.timestamp == ts then { r with value := value } else r)
    { db with dialValues := updated }
  else
    { db with dialValues := db.dialValues ++ [{ dialId := id, timestamp := ts, value := value }] }

/-- publishDialEvent (dial.go lines 820 to 833): look up the user ids of all
members of the dial and publish the event to each of them. -/
def publishDialEvent (db : DB) (id value : Int) : DB :=
  let userIds := (db.memberships.filter (fun m => m.dialId == id)).map MembershipRow.userId
  { db with events := db.events ++
      userIds.map (fun u => { userId := u, dialId := id, value := value }) }

/-- The aggregate recomputation query of refreshDialValue (dial.go lines 616 to
634): `SELECT CAST(ROUND(IFNULL(AVG(value), 0)) AS INTEGER) FROM
dial_memberships` (the postgres branch differs only in spelling `COALESCE` for
`IFNULL`).  The statement carries no `WHERE` clause on `dial_id`, so it
averages the `value` column of every membership row in the table, across all
dials; `AVG` over zero rows is NULL, turned into 0. -/
def membershipAverageAll (db : DB) : Int :=
  let vals := db.memberships.map MembershipRow.value
  if vals = [] then 0 else sqlRound ((vals.sum : ℚ) / (vals.length : ℚ))

/-- The foreign key gate in front of the history upsert: `dial_values.dial_id`
references `dials (id)` in the schema and both engines enforce it (sqlite via
`PRAGMA foreign_keys = ON`), so the gorm `Create` inside insertDialValue fails
with a constraint error when the dial does not exist, and performs the upsert
otherwise. -/
def insertDialValueFK (db : DB) (id value timestamp : Int) : Except DbError DB :=
  if db.dials.any (fun d => d.id == id) then .ok (insertDialValue db id value timestamp)
  else .error .foreignKeyViolation

/-- refreshDialValue (dial.go lines 599 to 683).  The oldValue `Scan` at line
602 leaves the Go zero value 0 in place when no dial row matches the id, and
gorm reports the empty result with a nil error — never `sql.ErrNoRows` — so
the no-dial check at line 603 is dead code and the function always proceeds.
It recomputes the aggregate with `membershipAverageAll`; if that equals
oldValue (0 for a missing dial), stop.  Otherwise write the new value onto
every dial row matching the id (zero rows when the dial is missing), upsert a
history row at the transaction time `now` — which for a missing dial violates
the enforced foreign key and aborts with an error — and finally publish a
value-changed event to every member of the dial. -/
def refreshDialValue (db : DB) (id now : Int) : Except DbError DB :=
  let oldValue := match db.dials.find? (fun d => d.id == id) with
    | none => 0
    | some dial => dial.value
  let newValue := membershipAverageAll db
  if oldValue = newValue then .ok db
  else
    let newDials := db.dials.map
      (fun d => if d.id == id then { d with value := newValue } else d)
    let db1 : DB := { db with dials := newDials }
    match insertDialValueFK db1 id newValue now with
    | .error e => .error e
    | .ok db2 => .ok (publishDialEvent db2 id newValue)

/-- The seed query of findDialValueSlotsBetween (dial.go line 738):
`dial_id = ? AND timestamp <= ?` with `Limit(1)` and no `Order` clause, so the
first matching row in table order is taken; `Scan` leaves the zero value 0 in
place when there is no row. -/
def seedValue (db : DB) (id start : Int) : Int :=
  match (db.dialValues.filter
      (fun r => r.dialId == id && decide (r.timestamp ≤ start))).head? with
  | none => 0
  | some r => r.value

/-- The range query of findDialValueSlotsBetween (dial.go line 763):
`dial_id = ? AND timestamp >= ? AND timestamp < ?`, with no `Order` clause, so
rows arrive in table order. -/
def rangeRows (db : DB) (id start endT : Int) : List DialValueRow :=
  db.dialValues.filter
    (fun r => r.dialId == id && decide (start ≤ r.timestamp) && decide (r.timestamp < endT))

/-- The slot-assignment loop of findDialValueSlotsBetween (dial.go lines 801 to
804): for each returned row in order, `i := int(timestamp.Sub(start) /
interval); values[i] = value`.  A slot index outside the slice bounds is a Go
index-out-of-range panic. -/
def assignSlots (start interval : Int) :
    List Int → List DialValueRow → Except GoPanic (List Int)
  | vs, [] => .ok vs
  | vs, r :: rest =>
    let i := Int.tdiv (r.timestamp - start) interval
    if 0 ≤ i ∧ i.toNat < vs.length then
      assignSlots start interval (vs.set i.toNat r.value) rest
    else .error .indexOutOfRange

/-- The backfill loop of findDialValueSlotsBetween (dial.go lines 806 to 814):
`var lastValue int` starts at 0; slots holding the sentinel -1 receive the
current `lastValue`, other slots update `lastValue`. -/
def forwardFill (lastValue : Int) : List Int → List Int
  | [] => []
  | v :: rest =>
    if v = -1 then lastValue :: forwardFill lastValue rest
    else v :: forwardFill v rest

/-- findDialValueSlotsBetween (dial.go lines 725 to 817).  Build
`(end - start) / interval` slots (Go duration division truncates toward zero; a
zero interval is a divide-by-zero panic and a negative count a `make` panic; a
zero count returns the empty slice at once).  Mark all slots -1, write the seed
value into slot 0, assign the in-range rows to their slots in returned order,
then backfill the remaining -1 slots. -/
def findDialValueSlotsBetween (db : DB) (id start endT interval : Int) :
    Except GoPanic (List Int) :=
  if interval = 0 then .error .divideByZero else
  let n := Int.tdiv (endT - start) interval
  if n < 0 then .error .makesliceLenOutOfRange else
  if n = 0 then .ok [] else
  let seeded := (List.replicate n.toNat (-1 : Int)).set 0 (seedValue db id start)
  match assignSlots start interval seeded (rangeRows db id start endT) with
  | .error p => .error p
  | .ok vs => .ok (forwardFill 0 vs)

/-- findDials with the empty filter, as called by AverageDialValueReport
(dial.go lines 325 to 392): the dials whose id appears in
`SELECT dial_id FROM dial_memberships WHERE user_id = ?` for the acting user. -/
def visibleDials (db : DB) (userId : Int) : List DialRow :=
  db.dials.filter
    (fun d => db.memberships.any (fun m => m.dialId == d.id && m.userId == userId))

/-- The per-dial reconstruction loop of AverageDialValueReport (dial.go lines
265 to 272): one call of findDialValueSlotsBetween for each dial, collected in
order; the first failure aborts. -/
def collectSlots (db : DB) (start endT interval : Int) :
    List DialRow → Except GoPanic (List (List Int))
  | [] => .ok []
  | d :: rest => do
    let vs ← findDialValueSlotsBetween db d.id start endT interval
    let rests ← collectSlots db start endT interval rest
    pure (vs :: rests)

/-- AverageDialValueReport (dial.go lines 241 to 293).  Truncate start and end
to the interval (a no-op when the interval is not positive), compute
`slotN = int(end.Sub(start) / interval)` (divide-by-zero panic on a zero
interval), allocate `slotN` records (`make` panic when `slotN` is negative),
fetch the dials visible to the user, reconstruct the slot sequence of each
dial, and emit one record per slot whose value is the slot sum divided
(truncating toward zero, as Go does) by `len(valuesSlice)`, or 0 when the user
has no visible dials.  Every reconstructed sequence has length `slotN` (proved
below), so the indexing `valuesSlice[j][i]` is total and `List.getD` matches
it. -/
def averageDialValueReport (db : DB) (userId start0 end0 interval : Int) :
    Except GoPanic (List DialValueRecord) :=
  let start := goTruncateTime start0 interval
  let endT := goTruncateTime end0 interval
  if interval = 0 then .error .divideByZero else
  let slotN := Int.tdiv (endT - start) interval
  if slotN < 0 then .error .makesliceLenOutOfRange else
  let dials := visibleDials db userId
  do
    let valuesSlice ← collectSlots db start endT interval dials
    pure ((List.range slotN.toNat).map (fun (i : Nat) =>
      let avg : Int := if dials.length = 0 then 0
        else Int.tdiv (valuesSlice.map (fun vs => vs.getD i 0)).sum (valuesSlice.length : Int)
      { timestamp := start + (i : Int) * interval, value := avg }))

/-- Written from the words of the spec, for comparison with the code: the
contract of `ValueAtOrBefore` (spec section 4.1) returns the value of the
snapshot of the entity whose timestamp is the latest one at or before `t`, or
none when no snapshot is that old.  The superseded raw-SQL query kept in the
comment at dial.go lines 743 to 757 implements exactly this, via
`ORDER BY "timestamp" DESC LIMIT 1`. -/
def specValueAtOrBefore (db : DB) (id t : Int) : Option Int :=
  ((db.dialValues.filter (fun r => r.dialId == id && decide (r.timestamp ≤ t))).foldl
    (fun acc r =>
      match acc with
      | none => some r
      | some b => if b.timestamp ≤ r.timestamp then some r else some b)
    none).map DialValueRow.value

/-- Written from the words of the spec, for comparison with the code: the mean
of spec section 4.2 step 2 is the rounded arithmetic mean of the current
membership values of the given dial only, and 0 with zero contributions. -/
def specEntityMean (db : DB) (id : Int) : Int :=
  let vals := (db.memberships.filter (fun m => m.dialId == id)).map MembershipRow.value
  if vals = [] then 0 else sqlRound ((vals.sum : ℚ) / (vals.length : ℚ))

/-- Observer: the values of the stored snapshots of one dial at one (already
truncated) timestamp, in table order. -/
def snapshotsAt (db : DB) (id ts : Int) : List Int :=
  (db.dialValues.filter (fun r => r.dialId == id && r.timestamp == ts)).map DialValueRow.value

/-! ### Example stores used by the concrete parts of the claims -/

/-- One dial, one member with value 0; a second dial with a member at value 10.
The only contribution of dial 1 is 0, so its per-entity mean is 0, while the
mean over the whole membership table is 5. -/
def dbTwoDials : DB :=
  ⟨[⟨1, 0⟩, ⟨2, 10⟩], [⟨1, 100, 0⟩, ⟨2, 200, 10⟩], [], []⟩

/-- One dial whose history is the single snapshot (t0 = 0, value 5). -/
def dbOneSnap : DB :=
  ⟨[⟨1, 5⟩], [], [⟨1, 0, 5⟩], []⟩

/-- One dial with two history rows inserted in chronological order: value 3 at
time 0, then value 7 at time 300 (both before the window start 600). -/
def dbSeedOrder : DB :=
  ⟨[⟨1, 7⟩], [], [⟨1, 0, 3⟩, ⟨1, 300, 7⟩], []⟩

/-- One dial with two history rows inserted out of timestamp order: value 9 at
time 180 first, then value 2 at time 60.  Both land in the single 240-second
slot of the window from 0 to 240. -/
def dbRangeOrder : DB :=
  ⟨[⟨1, 2⟩], [], [⟨1, 180, 9⟩, ⟨1, 60, 2⟩], []⟩

/-- One dial storing value 5 at time 0 and the sentinel value -1 at time 60. -/
def dbSentinel : DB :=
  ⟨[⟨1, 5⟩], [], [⟨1, 0, 5⟩, ⟨1, 60, -1⟩], []⟩

/-- Two dials with one member each; user 100 is a member of dial 1 only. -/
def dbReport : DB :=
  ⟨[⟨1, 5⟩, ⟨2, 8⟩], [⟨1, 100, 5⟩, ⟨2, 200, 8⟩], [⟨1, 0, 5⟩, ⟨2, 0, 8⟩], []⟩

/-- One dial whose stored value 5 equals the mean of the membership table. -/
def dbBalanced : DB :=
  ⟨[⟨1, 5⟩], [⟨1, 100, 5⟩], [], []⟩

/-- One dial with id 2 and an empty history; dial id 1 does not exist. -/
def dbOnlyDialTwo : DB :=
  ⟨[⟨2, 3⟩], [⟨2, 200, 3⟩], [], []⟩

/-- One dial with an empty history, used to exercise the upsert. -/
def dbNoHistory : DB :=
  ⟨[⟨1, 0⟩], [], [], []⟩

/-! ### Helper lemmas -/

/-- Getting the last element of a cons with a default is getting the last
element of the tail with the head as default. -/
theorem getLast?_getD_cons (l : List Int) (v d : Int) :
    ((v :: l).getLast?).getD d = (l.getLast?).getD v := by
  cases l with
  | nil => rfl
  | cons w l' =>
    rw [List.getLast?_cons_cons]
    cases h : (w :: l').getLast? with
    | none => simp [List.getLast?_cons] at h
    | some x => rfl

/-- The backfill loop keeps the slot count. -/
theorem forwardFill_length (last : Int) (l : List Int) :
    (forwardFill last l).length = l.length := by
  induction l generalizing last with
  | nil => rfl
  | cons v rest ih => by_cases h : v = -1 <;> simp [forwardFill, h, ih]

/-- When the running value is not the sentinel, the backfill loop leaves no
sentinel behind: every output slot differs from -1. -/
theorem forwardFill_ne_sentinel (last : Int) (h : last ≠ -1) (l : List Int) :
    ∀ v ∈ forwardFill last l, v ≠ -1 := by
  induction l generalizing last with
  | nil => intro v hv; simp [forwardFill] at hv
  | cons w rest ih =>
    intro v hv
    by_cases hw : w = -1
    · simp only [forwardFill, if_pos hw, List.mem_cons] at hv
      rcases hv with rfl | hv
      · exact h
      · exact ih last h v hv
    · simp only [forwardFill, if_neg hw, List.mem_cons] at hv
      rcases hv with rfl | hv
      · exact hw
      · exact ih w hw v hv

/-- Slot characterization of the backfill loop: a slot holding the sentinel
receives the last non-sentinel value among the slots before it (the running
value when there is none), all other slots are kept. -/
theorem forwardFill_getD (l : List Int) (last : Int) (i : Nat) (hi : i < l.length) :
    (forwardFill last l).getD i 0 =
      if l.getD i 0 = -1 then ((l.take i).filter (fun v => v != -1)).getLast?.getD last
      else l.getD i 0 := by
  induction l generalizing last i with
  | nil => simp at hi
  | cons v rest ih =>
    cases i with
    | zero =>
      by_cases h : v = -1 <;> simp [forwardFill, h]
    | succ j =>
      have hj : j < rest.length := by simpa using hi
      by_cases h : v = -1
      · subst h
        have hb : ((-1 : Int) != -1) = false := by decide
        simp only [forwardFill, if_pos rfl, List.getD_cons_succ, List.take_succ_cons,
          List.filter_cons, hb, Bool.false_eq_true, if_false]
        exact ih last j hj
      · have hb : (v != -1) = true := by simpa using h
        simp only [forwardFill, if_neg h, List.getD_cons_succ, List.take_succ_cons,
          List.filter_cons, hb, if_true]
        rw [ih v j hj]
        by_cases h2 : rest.getD j 0 = -1
        · rw [if_pos h2, if_pos h2, getLast?_getD_cons]
        · rw [if_neg h2, if_neg h2]

/-- When every row lands inside the slot array, the assignment loop does not
panic and keeps the slot count. -/
theorem assignSlots_ok (start interval : Int) (rows : List DialValueRow) :
    ∀ vs : List Int,
      (∀ r ∈ rows, 0 ≤ Int.tdiv (r.timestamp - start) interval ∧
        (Int.tdiv (r.timestamp - start) interval).toNat < vs.length) →
      ∃ vs', assignSlots start interval vs rows = .ok vs' ∧ vs'.length = vs.length := by
  induction rows with
  | nil => intro vs _; exact ⟨vs, rfl, rfl⟩
  | cons r rest ih =>
    intro vs h
    have hr := h r (by simp)
    obtain ⟨vs', h1, h2⟩ :=
      ih (vs.set (Int.tdiv (r.timestamp - start) interval).toNat r.value)
        (by intro x hx; simpa using h x (by simp [hx]))
    refine ⟨vs', ?_, by simpa using h2⟩
    simp only [assignSlots, if_pos hr]
    exact h1

/-- Core shape of a reconstruction over a nonempty interval-aligned window: the
assignment loop succeeds on the seeded slot array and the function returns its
backfilled result. -/
theorem findDialValueSlotsBetween_eq (db : DB) (id s e iv k : Int)
    (hiv : 0 < iv) (hk : 0 < k) (he : e - s = k * iv) :
    ∃ assigned,
      assignSlots s iv ((List.replicate k.toNat (-1 : Int)).set 0 (seedValue db id s))
        (rangeRows db id s e) = .ok assigned ∧
      assigned.length = k.toNat ∧
      findDialValueSlotsBetween db id s e iv = .ok (forwardFill 0 assigned) := by
  have hiv0 : iv ≠ 0 := ne_of_gt hiv
  have hn : Int.tdiv (e - s) iv = k := by rw [he]; exact Int.mul_tdiv_cancel k hiv0
  have hlen : ((List.replicate k.toNat (-1 : Int)).set 0 (seedValue db id s)).length
      = k.toNat := by simp
  obtain ⟨assigned, h1, h2⟩ :=
    assignSlots_ok s iv (rangeRows db id s e)
      ((List.replicate k.toNat (-1 : Int)).set 0 (seedValue db id s))
      (by
        intro r hr
        have hmem := hr
        simp only [rangeRows, List.mem_filter, Bool.and_eq_true, beq_iff_eq,
          decide_eq_true_eq] at hmem
        obtain ⟨-, ⟨-, hsr⟩, hre⟩ := hmem
        have hnum : 0 ≤ r.timestamp - s := by omega
        have htd : Int.tdiv (r.timestamp - s) iv = (r.timestamp - s) / iv :=
          Int.tdiv_eq_ediv hnum (le_of_lt hiv)
        have hlt : (r.timestamp - s) / iv < k := by
          rw [Int.ediv_lt_iff_lt_mul hiv]
          omega
        have hge : 0 ≤ Int.tdiv (r.timestamp - s) iv :=
          Int.tdiv_nonneg hnum (le_of_lt hiv)
        constructor
        · exact hge
        · rw [hlen]
          rw [htd] at hge ⊢
          omega)
  refine ⟨assigned, h1, by rw [h2, hlen], ?_⟩
  unfold findDialValueSlotsBetween
  rw [if_neg hiv0]
  simp only [hn]
  rw [if_neg (by omega : ¬ k < 0), if_neg (by omega : ¬ k = 0), h1]

/-- A reconstruction over an interval-aligned window with a nonnegative slot
count returns a sequence of exactly that many slots. -/
theorem findDialValueSlotsBetween_ok (db : DB) (id s e iv k : Int)
    (hiv : 0 < iv) (hk : 0 ≤ k) (he : e - s = k * iv) :
    ∃ vs, findDialValueSlotsBetween db id s e iv = .ok vs ∧ vs.length = k.toNat := by
  have hiv0 : iv ≠ 0 := ne_of_gt hiv
  have hn : Int.tdiv (e - s) iv = k := by rw [he]; exact Int.mul_tdiv_cancel k hiv0
  by_cases hk0 : k = 0
  · refine ⟨[], ?_, by simp [hk0]⟩
    unfold findDialValueSlotsBetween
    rw [if_neg hiv0]
    simp only [hn]
    rw [if_neg (by omega : ¬ k < 0), if_pos hk0]
  · obtain ⟨assigned, -, hlen, heq⟩ :=
      findDialValueSlotsBetween_eq db id s e iv k hiv (by omega) he
    exact ⟨forwardFill 0 assigned, heq, by rw [forwardFill_length, hlen]⟩

/-- The per-dial reconstruction loop of the report succeeds on every dial of an
interval-aligned window and yields one sequence of the common slot count per
dial. -/
theorem collectSlots_ok (db : DB) (s e iv k : Int)
    (hiv : 0 < iv) (hk : 0 ≤ k) (he : e - s = k * iv) (dials : List DialRow) :
    ∃ seqs,
      collectSlots db s e iv dials = .ok seqs ∧ seqs.length = dials.length ∧
      ∀ sq ∈ seqs, sq.length = k.toNat := by
  induction dials with
  | nil => exact ⟨[], rfl, rfl, by simp⟩
  | cons d rest ih =>
    obtain ⟨vs, h1, h2⟩ := findDialValueSlotsBetween_ok db d.id s e iv k hiv hk he
    obtain ⟨seqs, h3, h4, h5⟩ := ih
    refine ⟨vs :: seqs, ?_, by simp [h4], ?_⟩
    · simp only [collectSlots, h1, h3, bind, Except.bind]; rfl
    · intro sq hsq
      rcases List.mem_cons.mp hsq with rfl | hsq
      · exact h2
      · exact h5 sq hsq

/-- Overwriting the value of every row matching a key leaves, at that key,
exactly the rows that matched before, each now carrying the new value. -/
theorem filter_map_update (l : List DialValueRow) (id ts w : Int) :
    ((l.map (fun r => if r.dialId == id && r.timestamp == ts then { r with value := w } else r)).filter
        (fun r => r.dialId == id && r.timestamp == ts)).map DialValueRow.value
      = List.replicate (l.filter (fun r => r.dialId == id && r.timestamp == ts)).length w := by
  induction l with
  | nil => rfl
  | cons r l' ih =>
    by_cases hp : (r.dialId == id && r.timestamp == ts) = true
    · have hp2 : (({ r with value := w } : DialValueRow).dialId == id &&
          ({ r with value := w } : DialValueRow).timestamp == ts) = true := hp
      simp only [List.map_cons, if_pos hp, List.filter_cons, hp2, if_true, hp,
        List.length_cons, List.replicate_succ, ih]
    · simp only [List.map_cons, if_neg hp, List.filter_cons, hp, Bool.false_eq_true,
        if_false, ih]

/-- C3: insertDialValue truncates the timestamp to the minute and upserts on the
key (dial id, truncated timestamp): starting from a store with no snapshot at
that key, one write leaves exactly one snapshot with the written value, a
second write of the same value still leaves exactly that one snapshot, a second
write of a different value overwrites the value in place, and the two writes
together grow the table by exactly one row — never two. -/
theorem c3_minute_upsert (db : DB) (id v w ts : Int)
    (h : snapshotsAt db id (minuteTrunc ts) = []) :
    snapshotsAt (insertDialValue db id v ts) id (minuteTrunc ts) = [v] ∧
    snapshotsAt (insertDialValue (insertDialValue db id v ts) id v ts) id (minuteTrunc ts) = [v] ∧
    snapshotsAt (insertDialValue (insertDialValue db id v ts) id w ts) id (minuteTrunc ts) = [w] ∧
    (insertDialValue (insertDialValue db id v ts) id w ts).dialValues.length
      = db.dialValues.length + 1 := by
  have hfil : db.dialValues.filter
      (fun r => r.dialId == id && r.timestamp == minuteTrunc ts) = [] := by
    unfold snapshotsAt at h
    exact List.map_eq_nil_iff.mp h
  have hany : db.dialValues.any
      (fun r => r.dialId == id && r.timestamp == minuteTrunc ts) = false :=
    List.any_eq_false.mpr (by
      intro x hx hpx
      exact absurd (List.filter_eq_nil_iff.mp hfil x hx) (by simp [hpx]))
  have hd1 : (insertDialValue db id v ts).dialValues
      = db.dialValues ++ [⟨id, minuteTrunc ts, v⟩] := by
    simp only [insertDialValue]
    rw [if_neg (by simp [hany])]
  have hrow : ((⟨id, minuteTrunc ts, v⟩ : DialValueRow).dialId == id &&
      (⟨id, minuteTrunc ts, v⟩ : DialValueRow).timestamp == minuteTrunc ts) = true := by
    simp
  have hfil1 : (insertDialValue db id v ts).dialValues.filter
      (fun r => r.dialId == id && r.timestamp == minuteTrunc ts)
      = [⟨id, minuteTrunc ts, v⟩] := by
    rw [hd1, List.filter_append, hfil]
    simp [hrow]
  have hsnap1 : snapshotsAt (insertDialValue db id v ts) id (minuteTrunc ts) = [v] := by
    unfold snapshotsAt
    rw [hfil1]
    rfl
  have hany1 : (insertDialValue db id v ts).dialValues.any
      (fun r => r.dialId == id && r.timestamp == minuteTrunc ts) = true := by
    rw [hd1]
    simp [hrow]
  have hd2 : ∀ u : Int, (insertDialValue (insertDialValue db id v ts) id u ts).dialValues
      = (insertDialValue db id v ts).dialValues.map
          (fun r => if r.dialId == id && r.timestamp == minuteTrunc ts then
            { r with value := u } else r) := by
    intro u
    have hany1' := hany1
    revert hany1'
    generalize insertDialValue db id v ts = db1
    intro hany1'
    simp only [insertDialValue]
    rw [if_pos hany1']
  have hsnap2 : ∀ u : Int,
      snapshotsAt (insertDialValue (insertDialValue db id v ts) id u ts) id (minuteTrunc ts)
        = [u] := by
    intro u
    unfold snapshotsAt
    rw [hd2 u, filter_map_update, hfil1]
    rfl
  refine ⟨hsnap1, hsnap2 v, hsnap2 w, ?_⟩
  rw [hd2 w, List.length_map, hd1]
  simp

/-- C3 witness: the upsert properties at a concrete store with no history, dial
1, values 4 then 9, timestamp 65 (truncated to 60). -/
theorem c3_minute_upsert_witness :
    snapshotsAt (insertDialValue dbNoHistory 1 4 65) 1 (minuteTrunc 65) = [4] ∧
    snapshotsAt (insertDialValue (insertDialValue dbNoHistory 1 4 65) 1 4 65) 1 (minuteTrunc 65) = [4] ∧
    snapshotsAt (insertDialValue (insertDialValue dbNoHistory 1 4 65) 1 9 65) 1 (minuteTrunc 65) = [9] ∧
    (insertDialValue (insertDialValue dbNoHistory 1 4 65) 1 9 65).dialValues.length
      = dbNoHistory.dialValues.length + 1 :=
  c3_minute_upsert dbNoHistory 1 4 9 65 (by rfl)

/-- C4: the seed query of the reconstruction carries LIMIT 1 but no ORDER BY,
so it takes the first matching row in table order, not the row with the
greatest timestamp at or before the window start.  With the two history rows of
dbSeedOrder inserted in chronological order (value 3 at time 0, value 7 at time
300) and a window starting at 600, the code seeds the window with 3 and returns
[3, 3, 3], while the snapshot with the latest timestamp at or before 600 holds
value 7 (so the claim demands [7, 7, 7]). -/
theorem c4_seed_first_row_wins :
    findDialValueSlotsBetween dbSeedOrder 1 600 780 60 = .ok [3, 3, 3] ∧
    seedValue dbSeedOrder 1 600 = 3 ∧
    specValueAtOrBefore dbSeedOrder 1 600 = some 7 :=
  ⟨rfl, rfl, rfl⟩

/-- C5: the range query of the reconstruction carries no ORDER BY, so rows are
applied to slots in table (insertion) order, not in ascending timestamp order.
In dbRangeOrder the rows (timestamp 180, value 9) and (timestamp 60, value 2)
were inserted in that order; both fall into the single 240-second slot of the
window [0, 240), and the code leaves the slot holding 2, the value of the row
with the EARLIER timestamp, while the claim demands the value 9 of the snapshot
with the latest timestamp. -/
theorem c5_slot_insertion_order_wins :
    findDialValueSlotsBetween dbRangeOrder 1 0 240 240 = .ok [2] ∧
    rangeRows dbRangeOrder 1 0 240 = [⟨1, 180, 9⟩, ⟨1, 60, 2⟩] ∧
    Int.tdiv (180 - 0) 240 = 0 ∧ Int.tdiv (60 - 0) 240 = 0 ∧
    specValueAtOrBefore dbRangeOrder 1 239 = some 9 :=
  ⟨rfl, rfl, rfl, rfl, rfl⟩

/-- C7: when the recomputed aggregate equals the stored aggregate of the dial,
refreshDialValue is a complete error-free no-op: the store (dials, history and
all) is returned unchanged and no event is published. -/
theorem c7_noop_short_circuit (db : DB) (id now : Int) (d : DialRow)
    (hf : db.dials.find? (fun x => x.id == id) = some d)
    (hv : membershipAverageAll db = d.value) :
    refreshDialValue db id now = .ok db ∧
    (refreshDialValue db id now).map (fun x => x.dialValues.length)
      = .ok db.dialValues.length ∧
    (refreshDialValue db id now).map DB.events = .ok db.events := by
  have h : refreshDialValue db id now = .ok db := by
    unfold refreshDialValue
    rw [hf]
    simp [hv]
  exact ⟨h, by rw [h]; rfl, by rw [h]; rfl⟩

/-- C7 witness: in dbBalanced the stored value 5 of dial 1 equals the mean of
the membership table, so the recomputation changes nothing. -/
theorem c7_noop_short_circuit_witness :
    refreshDialValue dbBalanced 1 0 = .ok dbBalanced ∧
    (refreshDialValue dbBalanced 1 0).map (fun x => x.dialValues.length)
      = .ok dbBalanced.dialValues.length ∧
    (refreshDialValue dbBalanced 1 0).map DB.events = .ok dbBalanced.events :=
  c7_noop_short_circuit dbBalanced 1 0 ⟨1, 5⟩ (by rfl)
    (by norm_num [membershipAverageAll, sqlRound, dbBalanced])

/-- C8: recomputing the aggregate of a missing dial id is NOT a benign no-op.
The no-dial check at dial.go line 603 compares the gorm Scan error to
sql.ErrNoRows, which gorm Scan never returns: with zero rows the error is nil
and oldValue keeps the zero value 0, so the branch is dead and the code
proceeds.  In dbOnlyDialTwo dial 1 is missing and the table-wide average is 3,
different from 0, so the recomputation runs the dial update (matching zero
rows) and then attempts a dial_values insert for the missing dial id, which
the enforced foreign key rejects: the call returns an error instead of
returning without error and leaving the store untouched. -/
theorem c8_missing_dial_errors :
    (∀ d ∈ dbOnlyDialTwo.dials, d.id ≠ 1) ∧
    membershipAverageAll dbOnlyDialTwo = 3 ∧
    refreshDialValue dbOnlyDialTwo 1 0 = .error .foreignKeyViolation := by
  have h3 : membershipAverageAll dbOnlyDialTwo = 3 := by
    norm_num [membershipAverageAll, sqlRound, dbOnlyDialTwo]
  refine ⟨by decide, h3, ?_⟩
  unfold refreshDialValue
  simp only [h3]
  rfl

/-- C10: the reconstruction uses -1 as its unset-slot sentinel, so an in-window
snapshot stored with value -1 is indistinguishable from an empty slot: in
dbSentinel the snapshot (timestamp 60, value -1) lands in slot 1, and the
backfill overwrites it with the value 5 of the nearest preceding set slot,
returning [5, 5, 5].  In general a reconstructed sequence never contains -1. -/
theorem c10_sentinel_indistinguishable :
    findDialValueSlotsBetween dbSentinel 1 0 180 60 = .ok [5, 5, 5] ∧
    ∀ (db : DB) (id s e iv : Int) (vs : List Int),
      findDialValueSlotsBetween db id s e iv = .ok vs → (-1 : Int) ∉ vs := by
  constructor
  · rfl
  · intro db id s e iv vs h
    simp only [findDialValueSlotsBetween] at h
    split at h
    · exact absurd h (by simp)
    · split at h
      · exact absurd h (by simp)
      · split at h
        · injection h with h
          subst h
          simp
        · split at h
          · exact absurd h (by simp)
          · rename_i assigned heq
            injection h with h
            subst h
            intro hmem
            exact forwardFill_ne_sentinel 0 (by decide) assigned (-1) hmem rfl

/-- C10 witness: the general no-sentinel statement applied to the concrete
reconstruction of dbSentinel. -/
theorem c10_sentinel_indistinguishable_witness :
    (-1 : Int) ∉ [(5 : Int), 5, 5] :=
  c10_sentinel_indistinguishable.2 dbSentinel 1 0 180 60 [5, 5, 5] (by rfl)

/-- Shape of refreshDialValue on a changing aggregate: when the dial exists and
the recomputed value differs from the stored one, the foreign key is satisfied
and the result is the event publication applied to the history upsert applied
to the store with the dial value rewritten. -/
theorem refreshDialValue_change (db : DB) (id now : Int) (d : DialRow) (a : Int)
    (hf : db.dials.find? (fun x => x.id == id) = some d)
    (ha : membershipAverageAll db = a)
    (hne : d.value ≠ a) :
    refreshDialValue db id now =
      .ok (publishDialEvent
        (insertDialValue
          { db with dials := db.dials.map (fun x => if x.id == id then { x with value := a } else x) }
          id a now)
        id a) := by
  have hdid : (d.id == id) = true := by
    have h := List.find?_some hf
    simpa using h
  have hdmem : d ∈ db.dials := List.mem_of_find?_eq_some hf
  have hex : (db.dials.map (fun x => if x.id == id then { x with value := a } else x)).any
      (fun x => x.id == id) = true := by
    simp only [List.any_eq_true]
    refine ⟨⟨d.id, a⟩, ?_, hdid⟩
    simp only [List.mem_map]
    exact ⟨d, hdmem, by rw [if_pos hdid]⟩
  unfold refreshDialValue
  rw [hf]
  simp only [ha]
  rw [if_neg hne]
  simp only [insertDialValueFK]
  rw [if_pos hex]

/-- C1: the live aggregate query of refreshDialValue averages the whole
dial_memberships table (its SQL has no WHERE clause on dial_id).  In dbTwoDials
the only contribution of dial 1 is 0, so the per-entity mean of the claim is 0
and dial 1 should stay at its stored value 0 with no write, no history row and
no event; the code instead computes 5 (the mean over both dials), writes 5 onto
dial 1, appends a history row and publishes an event. -/
theorem c1_refresh_averages_all_dials :
    membershipAverageAll dbTwoDials = 5 ∧
    specEntityMean dbTwoDials 1 = 0 ∧
    refreshDialValue dbTwoDials 1 0 =
      .ok ⟨[⟨1, 5⟩, ⟨2, 10⟩], [⟨1, 100, 0⟩, ⟨2, 200, 10⟩], [⟨1, 0, 5⟩], [⟨100, 1, 5⟩]⟩ := by
  have h5 : membershipAverageAll dbTwoDials = 5 := by
    norm_num [membershipAverageAll, sqlRound, dbTwoDials]
    decide
  have h0 : specEntityMean dbTwoDials 1 = 0 := by
    norm_num [specEntityMean, sqlRound, dbTwoDials]
  have heq := refreshDialValue_change dbTwoDials 1 0 ⟨1, 0⟩ 5 rfl h5 (by decide)
  refine ⟨h5, h0, ?_⟩
  rw [heq]
  rfl

/-- C2: carry-forward correctness.  The concrete part: with the single snapshot
(time 0, value 5) the window [60, 240) at a one-minute interval reconstructs to
[5, 5, 5].  The general part, for any store and any interval-aligned nonempty
window: the assignment pass succeeds, the output is the backfill of the
assigned slots, it is dense of length (end - start) / interval, it contains no
sentinel, and every slot left unset by the assignment pass receives the value
of the nearest preceding set slot (the seed default 0 when there is none). -/
theorem c2_carry_forward :
    findDialValueSlotsBetween dbOneSnap 1 60 240 60 = .ok [5, 5, 5] ∧
    ∀ (db : DB) (id s e iv k : Int), 0 < iv → 0 < k → e - s = k * iv →
      ∃ assigned,
        assignSlots s iv ((List.replicate k.toNat (-1 : Int)).set 0 (seedValue db id s))
          (rangeRows db id s e) = .ok assigned ∧
        assigned.length = k.toNat ∧
        findDialValueSlotsBetween db id s e iv = .ok (forwardFill 0 assigned) ∧
        (forwardFill 0 assigned).length = k.toNat ∧
        (∀ v ∈ forwardFill 0 assigned, v ≠ -1) ∧
        ∀ i : Nat, i < k.toNat → assigned.getD i 0 = -1 →
          (forwardFill 0 assigned).getD i 0 =
            ((assigned.take i).filter (fun v => v != -1)).getLast?.getD 0 := by
  constructor
  · rfl
  · intro db id s e iv k hiv hk he
    obtain ⟨assigned, h1, h2, h3⟩ := findDialValueSlotsBetween_eq db id s e iv k hiv hk he
    refine ⟨assigned, h1, h2, h3, by rw [forwardFill_length, h2], ?_, ?_⟩
    · exact forwardFill_ne_sentinel 0 (by decide) assigned
    · intro i hi hns
      rw [forwardFill_getD assigned 0 i (by rw [h2]; exact hi), if_pos hns]

/-- C2 witness: the general carry-forward statement applied to dbOneSnap over
the window [60, 240) with a 60-second interval (3 slots). -/
theorem c2_carry_forward_witness :
    ∃ assigned,
      assignSlots 60 60 ((List.replicate (3 : Int).toNat (-1 : Int)).set 0 (seedValue dbOneSnap 1 60))
        (rangeRows dbOneSnap 1 60 240) = .ok assigned ∧
      assigned.length = (3 : Int).toNat ∧
      findDialValueSlotsBetween dbOneSnap 1 60 240 60 = .ok (forwardFill 0 assigned) ∧
      (forwardFill 0 assigned).length = (3 : Int).toNat ∧
      (∀ v ∈ forwardFill 0 assigned, v ≠ -1) ∧
      ∀ i : Nat, i < (3 : Int).toNat → assigned.getD i 0 = -1 →
        (forwardFill 0 assigned).getD i 0 =
          ((assigned.take i).filter (fun v => v != -1)).getLast?.getD 0 :=
  c2_carry_forward.2 dbOneSnap 1 60 240 60 3 (by decide) (by decide) (by decide)

/-- C6 counterexample: no invalid window is rejected before computation.  With
end one minute before start and a positive interval the computation crashes in
make with a negative slice length; with a zero interval it crashes with a
division by zero; and with end equal to start it runs to completion and returns
an ok empty report instead of an error. -/
theorem c6_no_window_validation_counterexample :
    averageDialValueReport dbTwoDials 100 60 0 60 = .error .makesliceLenOutOfRange ∧
    averageDialValueReport dbTwoDials 100 0 60 0 = .error .divideByZero ∧
    averageDialValueReport dbTwoDials 100 60 60 60 = .ok [] :=
  ⟨rfl, rfl, rfl⟩

/-- C6 amended: AverageDialValueReport performs no window validation.  A zero
interval always crashes with a division by zero; a window whose truncated end
precedes its truncated start, with a positive interval, always crashes with a
negative slice length; a window whose truncated end equals its truncated start
runs to completion and returns an empty-record report with no error. -/
theorem c6_no_window_validation (db : DB) (userId s0 e0 iv : Int) :
    (iv = 0 → averageDialValueReport db userId s0 e0 iv = .error .divideByZero) ∧
    (0 < iv → goTruncateTime e0 iv < goTruncateTime s0 iv →
      averageDialValueReport db userId s0 e0 iv = .error .makesliceLenOutOfRange) ∧
    (0 < iv → goTruncateTime e0 iv = goTruncateTime s0 iv →
      averageDialValueReport db userId s0 e0 iv = .ok []) := by
  refine ⟨?_, ?_, ?_⟩
  · intro h0
    simp only [averageDialValueReport]
    rw [if_pos h0]
  · intro hiv hlt
    have hivne : iv ≠ 0 := ne_of_gt hiv
    have hsval : goTruncateTime s0 iv = Int.fdiv s0 iv * iv := by
      simp [goTruncateTime, not_le.mpr hiv]
    have heval : goTruncateTime e0 iv = Int.fdiv e0 iv * iv := by
      simp [goTruncateTime, not_le.mpr hiv]
    have hd : goTruncateTime e0 iv - goTruncateTime s0 iv
        = (Int.fdiv e0 iv - Int.fdiv s0 iv) * iv := by
      rw [hsval, heval]; ring
    have hba : Int.fdiv e0 iv - Int.fdiv s0 iv < 0 := by
      have : Int.fdiv e0 iv * iv < Int.fdiv s0 iv * iv := by rw [← hsval, ← heval]; exact hlt
      have := lt_of_mul_lt_mul_right this (le_of_lt hiv)
      omega
    simp only [averageDialValueReport]
    rw [if_neg hivne, hd, Int.mul_tdiv_cancel _ hivne, if_pos hba]
  · intro hiv heq
    have hivne : iv ≠ 0 := ne_of_gt hiv
    have hd : goTruncateTime e0 iv - goTruncateTime s0 iv = 0 * iv := by
      rw [heq]; ring
    obtain ⟨seqs, hc, -, -⟩ :=
      collectSlots_ok db (goTruncateTime s0 iv) (goTruncateTime e0 iv) iv 0 hiv le_rfl hd
        (visibleDials db userId)
    simp only [averageDialValueReport]
    rw [if_neg hivne, hd, Int.mul_tdiv_cancel _ hivne,
      if_neg (by omega : ¬ (0 : Int) < 0), hc]
    simp only [bind, Except.bind]
    rfl

/-- C6 amended witness: the three behaviors at concrete inputs. -/
theorem c6_no_window_validation_witness :
    averageDialValueReport dbReport 100 0 60 0 = .error .divideByZero ∧
    averageDialValueReport dbReport 100 120 0 60 = .error .makesliceLenOutOfRange ∧
    averageDialValueReport dbReport 100 90 60 60 = .ok [] :=
  ⟨(c6_no_window_validation dbReport 100 0 60 0).1 rfl,
    (c6_no_window_validation dbReport 100 120 0 60).2.1 (by decide) (by decide),
    (c6_no_window_validation dbReport 100 90 60 60).2.2 (by decide) (by decide)⟩

/-- C9: for a positive interval and a window whose truncated end does not
precede its truncated start, the report always returns ok with exactly one
record per slot; record i carries timestamp start + i * interval (start
truncated); and its value is 0 when the user has no visible dial and otherwise
the sum of the per-dial reconstructed slot values divided, truncating toward
zero, by the number of visible dials (one reconstructed sequence per dial). -/
theorem c9_report_shape (db : DB) (userId s0 e0 iv : Int) (hiv : 0 < iv)
    (hse : goTruncateTime s0 iv ≤ goTruncateTime e0 iv) :
    ∃ (records : List DialValueRecord) (seqs : List (List Int)),
      averageDialValueReport db userId s0 e0 iv = .ok records ∧
      collectSlots db (goTruncateTime s0 iv) (goTruncateTime e0 iv) iv
        (visibleDials db userId) = .ok seqs ∧
      seqs.length = (visibleDials db userId).length ∧
      records.length
        = (Int.tdiv (goTruncateTime e0 iv - goTruncateTime s0 iv) iv).toNat ∧
      ∀ i : Nat, i < records.length →
        records.getD i ⟨0, 0⟩ =
          { timestamp := goTruncateTime s0 iv + (i : Int) * iv,
            value := if (visibleDials db userId).length = 0 then 0
              else Int.tdiv (seqs.map (fun sq => sq.getD i 0)).sum (seqs.length : Int) } := by
  have hivne : iv ≠ 0 := ne_of_gt hiv
  have hsval : goTruncateTime s0 iv = Int.fdiv s0 iv * iv := by
    simp [goTruncateTime, not_le.mpr hiv]
  have heval : goTruncateTime e0 iv = Int.fdiv e0 iv * iv := by
    simp [goTruncateTime, not_le.mpr hiv]
  have hd : goTruncateTime e0 iv - goTruncateTime s0 iv
      = (Int.fdiv e0 iv - Int.fdiv s0 iv) * iv := by
    rw [hsval, heval]; ring
  have hk : 0 ≤ Int.fdiv e0 iv - Int.fdiv s0 iv := by
    by_contra hneg
    push_neg at hneg
    have h1 : (Int.fdiv e0 iv - Int.fdiv s0 iv) * iv < 0 := by
      have := mul_lt_mul_of_pos_right hneg hiv
      simpa using this
    omega
  obtain ⟨seqs, hc, hlen, -⟩ :=
    collectSlots_ok db (goTruncateTime s0 iv) (goTruncateTime e0 iv) iv
      (Int.fdiv e0 iv - Int.fdiv s0 iv) hiv hk hd (visibleDials db userId)
  have htd : Int.tdiv (goTruncateTime e0 iv - goTruncateTime s0 iv) iv
      = Int.fdiv e0 iv - Int.fdiv s0 iv := by
    rw [hd]; exact Int.mul_tdiv_cancel _ hivne
  refine ⟨(List.range (Int.fdiv e0 iv - Int.fdiv s0 iv).toNat).map (fun (i : Nat) =>
      { timestamp := goTruncateTime s0 iv + (i : Int) * iv,
        value := if (visibleDials db userId).length = 0 then 0
          else Int.tdiv (seqs.map (fun sq => sq.getD i 0)).sum (seqs.length : Int) }),
    seqs, ?_, hc, hlen, ?_, ?_⟩
  · simp only [averageDialValueReport]
    rw [if_neg hivne, htd, if_neg (not_lt.mpr hk), hc]
    simp only [bind, Except.bind]
    rfl
  · rw [List.length_map, List.length_range, htd]
  · intro i hi
    rw [List.length_map, List.length_range] at hi
    rw [List.getD_eq_getElem?_getD, List.getElem?_map, List.getElem?_range hi]
    rfl

/-- C9 witness: the report shape at a concrete store, user 100, window
[0, 180), one-minute interval. -/
theorem c9_report_shape_witness :
    ∃ (records : List DialValueRecord) (seqs : List (List Int)),
      averageDialValueReport dbReport 100 0 180 60 = .ok records ∧
      collectSlots dbReport (goTruncateTime 0 60) (goTruncateTime 180 60) 60
        (visibleDials dbReport 100) = .ok seqs ∧
      seqs.length = (visibleDials dbReport 100).length ∧
      records.length
        = (Int.tdiv (goTruncateTime 180 60 - goTruncateTime 0 60) 60).toNat ∧
      ∀ i : Nat, i < records.length →
        records.getD i ⟨0, 0⟩ =
          { timestamp := goTruncateTime 0 60 + (i : Int) * 60,
            value := if (visibleDials dbReport 100).length = 0 then 0
              else Int.tdiv (seqs.map (fun sq => sq.getD i 0)).sum (seqs.length : Int) } :=
  c9_report_shape dbReport 100 0 180 60 (by decide) (by decide)

end Wtf
